import Mathlib

/-!
Verification of the hawkeye repository's status-poller, pipeline orchestration,
login rate limiting and audit-log serialization, as shallow Lean embeddings of
the Python source (`src/streamlit_app.py`, `src/full_pipeline.py`).
-/

namespace Hawkeye

/-! ## Status poller (`streamlit_app.py`: `poll_flow_status`, `check_flow_run_status`,
`update_report_status`)

The external world is modelled as a function `env : Nat → PollOutcome` giving the
outcome of the i-th call to `check_flow_run_status`.  Persistence writes performed
through `update_report_status` are collected in order in a list. -/

/-- Outcome of one call to `check_flow_run_status flow_run_id`:
either the HTTP request succeeds and the Prefect state type string is returned
(`success = True` with `status`), or a `RequestException` is caught and
`success = False` is returned (`netFail`), or an exception escapes into the
poll loop body and is caught by its `except` clause (`exn`). -/
inductive PollOutcome where
  | ok (status : String)
  | netFail
  | exn
deriving DecidableEq, Repr

/-- `final_states = ['COMPLETED', 'FAILED', 'CANCELLED', 'CRASHED']` from
`poll_flow_status`. -/
def final_states : List String := ["COMPLETED", "FAILED", "CANCELLED", "CRASHED"]

/-- The `status_mapping` dict lookup `status_mapping.get(current_status, 'pending')`
inside `poll_flow_status`: a pure total function from the external state vocabulary
to the persisted lifecycle status, defaulting to `'pending'`. -/
def status_mapping (current_status : String) : String :=
  if current_status = "SCHEDULED" then "scheduled"
  else if current_status = "PENDING" then "pending"
  else if current_status = "RUNNING" then "running"
  else if current_status = "COMPLETED" then "completed"
  else if current_status = "FAILED" then "failed"
  else if current_status = "CANCELLED" then "cancelled"
  else if current_status = "CRASHED" then "failed"
  else "pending"

/-- State at exit of the `while` loop of `poll_flow_status`:
`writes` is the ordered list of statuses passed to `update_report_status`,
`checks` the number of `check_flow_run_status` calls made, and
`attempts` the final value of the `attempts` counter. -/
structure LoopExit where
  writes : List String
  checks : Nat
  attempts : Nat
deriving DecidableEq, Repr

/-- The `while attempts < max_attempts` loop of `poll_flow_status`, with
`fuel = max_attempts - attempts` (so the loop guard holds iff `fuel > 0`).
On a successful check the mapped status is written; if the observed external
state is in `final_states` the loop breaks *before* incrementing `attempts`.
On a failed check (`netFail`) no write happens; on an exception (`exn`) the
`except` clause swallows it; in both cases the loop sleeps and retries. -/
def poll_loop (env : Nat → PollOutcome) : Nat → Nat → Nat → List String → LoopExit
  | 0, attempts, checks, writes => ⟨writes, checks, attempts⟩
  | fuel + 1, attempts, checks, writes =>
    match env checks with
    | .ok current_status =>
        let db_status := status_mapping current_status
        let writes' := writes ++ [db_status]
        if current_status ∈ final_states then ⟨writes', checks + 1, attempts⟩
        else poll_loop env fuel (attempts + 1) (checks + 1) writes'
    | .netFail => poll_loop env fuel (attempts + 1) (checks + 1) writes
    | .exn => poll_loop env fuel (attempts + 1) (checks + 1) writes

/-- `poll_flow_status(report_id, flow_run_id, max_attempts, interval)`: runs the
poll loop starting from `attempts = 0` and, if on exit `attempts >= max_attempts`,
force-writes a final `'timeout'` status. -/
def poll_flow_status (env : Nat → PollOutcome) (max_attempts : Nat) : LoopExit :=
  let e := poll_loop env max_attempts 0 0 []
  if max_attempts ≤ e.attempts then { e with writes := e.writes ++ ["timeout"] } else e

/-- An all-successful environment: the i-th status query returns external state `f i`. -/
def okEnv (f : Nat → String) : Nat → PollOutcome := fun i => .ok (f i)

lemma status_mapping_ne_timeout (s : String) : status_mapping s ≠ "timeout" := by
  unfold status_mapping
  repeat' split
  all_goals decide

/-- Run lemma for an all-successful poll sequence whose first terminal state is at
offset `k` from the current check index: the loop writes the mapped statuses of
checks `c, c+1, …, c+k`, performs `k+1` further checks, and increments `attempts`
only `k` times (the terminal iteration breaks before the increment). -/
lemma poll_loop_ok_run (f : Nat → String) :
    ∀ (k fuel attempts checks : Nat) (writes : List String),
      k < fuel →
      (∀ j, j < k → f (checks + j) ∉ final_states) →
      f (checks + k) ∈ final_states →
      poll_loop (okEnv f) fuel attempts checks writes =
        ⟨writes ++ (List.range' checks (k + 1) 1).map (fun i => status_mapping (f i)),
         checks + k + 1, attempts + k⟩ := by
  intro k
  induction k with
  | zero =>
    intro fuel attempts checks writes hfuel _ hterm
    match fuel, hfuel with
    | fuel + 1, _ =>
      simp only [poll_loop, okEnv]
      rw [if_pos (by simpa using hterm)]
      simp [List.range']
  | succ k ih =>
    intro fuel attempts checks writes hfuel hpre hterm
    match fuel, hfuel with
    | fuel + 1, hfuel =>
      simp only [poll_loop, okEnv]
      rw [if_neg (by simpa using hpre 0 (Nat.succ_pos k))]
      rw [ih fuel (attempts + 1) (checks + 1) _ (Nat.lt_of_succ_lt_succ hfuel)
          (fun j hj => by
            have h := hpre (j + 1) (Nat.succ_lt_succ hj)
            rwa [show checks + (j + 1) = checks + 1 + j by omega] at h)
          (by rwa [show checks + (k + 1) = checks + 1 + k by omega] at hterm)]
      simp only [LoopExit.mk.injEq, List.range', List.map_cons]
      refine ⟨?_, by omega, by omega⟩
      simp

/-- Whether the i-th check outcome is a successful query of a terminal external
state (the only situation in which the loop can break). -/
def terminalOk (env : Nat → PollOutcome) (i : Nat) : Prop :=
  ∃ s, env i = .ok s ∧ s ∈ final_states

instance (env : Nat → PollOutcome) (i : Nat) : Decidable (terminalOk env i) := by
  unfold terminalOk
  match env i with
  | .ok s =>
    by_cases h : s ∈ final_states
    · exact .isTrue ⟨s, rfl, h⟩
    · exact .isFalse (by rintro ⟨t, ht, htm⟩; cases ht; exact h htm)
  | .netFail => exact .isFalse (by rintro ⟨t, ht, _⟩; cases ht)
  | .exn => exact .isFalse (by rintro ⟨t, ht, _⟩; cases ht)

/-- If no check in the remaining budget observes a terminal external state,
the loop consumes all its fuel: `attempts` and `checks` each advance by `fuel`. -/
lemma poll_loop_no_terminal (env : Nat → PollOutcome) :
    ∀ (fuel attempts checks : Nat) (writes : List String),
      (∀ j, j < fuel → ¬ terminalOk env (checks + j)) →
      (poll_loop env fuel attempts checks writes).attempts = attempts + fuel ∧
      (poll_loop env fuel attempts checks writes).checks = checks + fuel := by
  intro fuel
  induction fuel with
  | zero => intro attempts checks writes _; simp [poll_loop]
  | succ fuel ih =>
    intro attempts checks writes hnt
    have hshift : ∀ j, j < fuel → ¬ terminalOk env (checks + 1 + j) := by
      intro j hj
      have h := hnt (j + 1) (Nat.succ_lt_succ hj)
      rwa [show checks + (j + 1) = checks + 1 + j by omega] at h
    cases henv : env checks with
    | ok s =>
      have hs : s ∉ final_states := by
        intro hmem
        exact hnt 0 (Nat.succ_pos fuel) ⟨s, henv, hmem⟩
      simp only [poll_loop, henv]
      rw [if_neg hs]
      have h := ih (attempts + 1) (checks + 1) (writes ++ [status_mapping s]) hshift
      omega
    | netFail =>
      simp only [poll_loop, henv]
      have h := ih (attempts + 1) (checks + 1) writes hshift
      omega
    | exn =>
      simp only [poll_loop, henv]
      have h := ih (attempts + 1) (checks + 1) writes hshift
      omega

/-- The starting check index is a lower bound for the exit check count. -/
lemma poll_loop_checks_le (env : Nat → PollOutcome) :
    ∀ (fuel attempts checks : Nat) (writes : List String),
      checks ≤ (poll_loop env fuel attempts checks writes).checks := by
  intro fuel
  induction fuel with
  | zero => intro attempts checks writes; simp [poll_loop]
  | succ fuel ih =>
    intro attempts checks writes
    cases henv : env checks with
    | ok s =>
      simp only [poll_loop, henv]
      by_cases hs : s ∈ final_states
      · rw [if_pos hs]; simp
      · rw [if_neg hs]
        exact le_trans (Nat.le_succ checks) (ih _ _ _)
    | netFail =>
      simp only [poll_loop, henv]
      exact le_trans (Nat.le_succ checks) (ih _ _ _)
    | exn =>
      simp only [poll_loop, henv]
      exact le_trans (Nat.le_succ checks) (ih _ _ _)

/-- Write characterization of the poll loop: the statuses written are exactly the
mapped statuses of the *successful* checks among those performed; failed checks
(`netFail`) and swallowed exceptions (`exn`) contribute no write. -/
lemma poll_loop_writes (env : Nat → PollOutcome) :
    ∀ (fuel attempts checks : Nat) (writes : List String),
      (poll_loop env fuel attempts checks writes).writes =
        writes ++ (List.range' checks ((poll_loop env fuel attempts checks writes).checks - checks) 1).filterMap
          (fun i => match env i with
            | .ok s => some (status_mapping s)
            | _ => none) := by
  intro fuel
  induction fuel with
  | zero => intro attempts checks writes; simp [poll_loop]
  | succ fuel ih =>
    intro attempts checks writes
    cases henv : env checks with
    | ok s =>
      simp only [poll_loop, henv]
      by_cases hs : s ∈ final_states
      · rw [if_pos hs]
        simp [henv, List.range']
      · rw [if_neg hs]
        have hle := poll_loop_checks_le env fuel (attempts + 1) (checks + 1) (writes ++ [status_mapping s])
        rw [ih (attempts + 1) (checks + 1) (writes ++ [status_mapping s])]
        rw [show (poll_loop env fuel (attempts + 1) (checks + 1) (writes ++ [status_mapping s])).checks - checks
            = ((poll_loop env fuel (attempts + 1) (checks + 1) (writes ++ [status_mapping s])).checks - (checks + 1)) + 1 by omega]
        rw [List.range'_succ]
        simp [henv]
    | netFail =>
      simp only [poll_loop, henv]
      have hle := poll_loop_checks_le env fuel (attempts + 1) (checks + 1) writes
      rw [ih (attempts + 1) (checks + 1) writes]
      rw [show (poll_loop env fuel (attempts + 1) (checks + 1) writes).checks - checks
          = ((poll_loop env fuel (attempts + 1) (checks + 1) writes).checks - (checks + 1)) + 1 by omega]
      rw [List.range'_succ]
      simp [henv]
    | exn =>
      simp only [poll_loop, henv]
      have hle := poll_loop_checks_le env fuel (attempts + 1) (checks + 1) writes
      rw [ih (attempts + 1) (checks + 1) writes]
      rw [show (poll_loop env fuel (attempts + 1) (checks + 1) writes).checks - checks
          = ((poll_loop env fuel (attempts + 1) (checks + 1) writes).checks - (checks + 1)) + 1 by omega]
      rw [List.range'_succ]
      simp [henv]

/-- The loop exits only by exhausting the attempt budget or by observing a
terminal external state on its last check. -/
lemma poll_loop_exit (env : Nat → PollOutcome) :
    ∀ (fuel attempts checks : Nat) (writes : List String),
      (poll_loop env fuel attempts checks writes).attempts = attempts + fuel ∨
      terminalOk env ((poll_loop env fuel attempts checks writes).checks - 1) := by
  intro fuel
  induction fuel with
  | zero => intro attempts checks writes; left; simp [poll_loop]
  | succ fuel ih =>
    intro attempts checks writes
    cases henv : env checks with
    | ok s =>
      simp only [poll_loop, henv]
      by_cases hs : s ∈ final_states
      · rw [if_pos hs]
        right
        simp only [Nat.add_sub_cancel]
        exact ⟨s, henv, hs⟩
      · rw [if_neg hs]
        rcases ih (attempts + 1) (checks + 1) (writes ++ [status_mapping s]) with h | h
        · left; omega
        · right; exact h
    | netFail =>
      simp only [poll_loop, henv]
      rcases ih (attempts + 1) (checks + 1) writes with h | h
      · left; omega
      · right; exact h
    | exn =>
      simp only [poll_loop, henv]
      rcases ih (attempts + 1) (checks + 1) writes with h | h
      · left; omega
      · right; exact h

/-- Top-level run of `poll_flow_status` over an all-successful poll sequence whose
first terminal state is at check index `k < max_attempts`: the exit state is fully
determined and the `timeout` branch is not taken. -/
lemma poll_flow_status_ok_run (f : Nat → String) (max_attempts k : Nat)
    (hk : k < max_attempts)
    (hpre : ∀ j, j < k → f j ∉ final_states)
    (hterm : f k ∈ final_states) :
    poll_flow_status (okEnv f) max_attempts =
      ⟨(List.range' 0 (k + 1) 1).map (fun i => status_mapping (f i)), k + 1, k⟩ := by
  have hrun := poll_loop_ok_run f k max_attempts 0 0 []
    hk (by simpa using hpre) (by simpa using hterm)
  simp only [poll_flow_status, hrun]
  rw [if_neg (by simp; omega)]
  simp

/-- The poll sequence of the spec scenario: `[PENDING, RUNNING, RUNNING, COMPLETED]`. -/
def demo_seq : Nat → String :=
  fun i => ["PENDING", "RUNNING", "RUNNING", "COMPLETED"].getD i "COMPLETED"

/-- C1: for every sequence of successfully polled external states whose first
terminal external state appears at check index `k` within the attempt budget,
`poll_flow_status` records the mapped status of every check up to and including
the terminal one, its final persisted status is the mapped terminal status, the
loop exits with the attempt counter strictly below `max_attempts`, no `timeout`
is ever written, and the poller exits right after the `(k+1)`-th check; in
particular, for the poll sequence `[PENDING, RUNNING, RUNNING, COMPLETED]` the
statuses written are `[pending, running, running, completed]` and the poller
exits after the 4th check. -/
theorem poller_terminal_within_budget
    (f : Nat → String) (max_attempts k : Nat)
    (hk : k < max_attempts)
    (hpre : ∀ j, j < k → f j ∉ final_states)
    (hterm : f k ∈ final_states) :
    ((poll_flow_status (okEnv f) max_attempts).writes =
        (List.range' 0 (k + 1) 1).map (fun i => status_mapping (f i)) ∧
      (poll_flow_status (okEnv f) max_attempts).writes.getLast? =
        some (status_mapping (f k)) ∧
      (poll_flow_status (okEnv f) max_attempts).attempts = k ∧
      (poll_flow_status (okEnv f) max_attempts).attempts < max_attempts ∧
      "timeout" ∉ (poll_flow_status (okEnv f) max_attempts).writes ∧
      (poll_flow_status (okEnv f) max_attempts).checks = k + 1) ∧
    ((poll_flow_status (okEnv demo_seq) 600).writes =
        ["pending", "running", "running", "completed"] ∧
      (poll_flow_status (okEnv demo_seq) 600).checks = 4) := by
  constructor
  · rw [poll_flow_status_ok_run f max_attempts k hk hpre hterm]
    refine ⟨rfl, ?_, rfl, hk, ?_, rfl⟩
    · simp [List.range'_concat, List.getLast?_concat]
    · intro hmem
      simp only [List.mem_map] at hmem
      obtain ⟨i, _, hi⟩ := hmem
      exact status_mapping_ne_timeout (f i) hi
  · rw [poll_flow_status_ok_run demo_seq 600 3 (by omega) (by decide) (by decide)]
    constructor
    · decide
    · rfl

/-- Witness for C1 at the spec's concrete scenario. -/
theorem poller_terminal_within_budget_witness :
    (3 < 600 ∧ (∀ j, j < 3 → demo_seq j ∉ final_states) ∧ demo_seq 3 ∈ final_states) ∧
    ((poll_flow_status (okEnv demo_seq) 600).writes =
        ["pending", "running", "running", "completed"] ∧
      (poll_flow_status (okEnv demo_seq) 600).checks = 4) :=
  ⟨⟨by omega, by decide, by decide⟩,
    (poller_terminal_within_budget demo_seq 600 3 (by omega) (by decide) (by decide)).2⟩

/-- C2: if no status query within the attempt budget observes a terminal external
state, `poll_flow_status` runs for exactly `max_attempts` iterations (one check
each) and its final persistence write is the forced `timeout` status, whatever
the last observed external state was. -/
theorem poller_timeout_when_no_terminal
    (env : Nat → PollOutcome) (max_attempts : Nat)
    (hnt : ∀ j, j < max_attempts → ¬ terminalOk env j) :
    (poll_flow_status env max_attempts).attempts = max_attempts ∧
    (poll_flow_status env max_attempts).checks = max_attempts ∧
    (poll_flow_status env max_attempts).writes.getLast? = some "timeout" := by
  have h := poll_loop_no_terminal env max_attempts 0 0 [] (by simpa using hnt)
  simp only [poll_flow_status]
  rw [if_pos (by omega)]
  refine ⟨by simp [h.1], by simp [h.2], ?_⟩
  simp [List.getLast?_concat]

/-- Witness for C2: two straight `RUNNING` polls with a budget of 2. -/
theorem poller_timeout_when_no_terminal_witness :
    (∀ j, j < 2 → ¬ terminalOk (fun _ => PollOutcome.ok "RUNNING") j) ∧
    ((poll_flow_status (fun _ => PollOutcome.ok "RUNNING") 2).attempts = 2 ∧
      (poll_flow_status (fun _ => PollOutcome.ok "RUNNING") 2).checks = 2 ∧
      (poll_flow_status (fun _ => PollOutcome.ok "RUNNING") 2).writes.getLast? =
        some "timeout") :=
  ⟨by decide, poller_timeout_when_no_terminal (fun _ => PollOutcome.ok "RUNNING") 2 (by decide)⟩

/-- C4: the external-to-lifecycle status mapping of the poller is a pure total
function with the fixed table `RUNNING ↦ running`, `CRASHED ↦ failed`,
`SCHEDULED ↦ scheduled`, `PENDING ↦ pending`, `COMPLETED ↦ completed`,
`FAILED ↦ failed`, `CANCELLED ↦ cancelled`, and every other external state
mapping to `pending`. -/
theorem status_mapping_pure_total :
    status_mapping "RUNNING" = "running" ∧
    status_mapping "CRASHED" = "failed" ∧
    status_mapping "SCHEDULED" = "scheduled" ∧
    status_mapping "PENDING" = "pending" ∧
    status_mapping "COMPLETED" = "completed" ∧
    status_mapping "FAILED" = "failed" ∧
    status_mapping "CANCELLED" = "cancelled" ∧
    ∀ s : String,
      s ∉ (["SCHEDULED", "PENDING", "RUNNING", "COMPLETED", "FAILED",
            "CANCELLED", "CRASHED"] : List String) →
      status_mapping s = "pending" := by
  refine ⟨by decide, by decide, by decide, by decide, by decide, by decide, by decide, ?_⟩
  intro s hs
  simp only [List.mem_cons, List.not_mem_nil, or_false, not_or] at hs
  obtain ⟨h1, h2, h3, h4, h5, h6, h7⟩ := hs
  simp [status_mapping, h1, h2, h3, h4, h5, h6, h7]

/-- Witness for C4's default case at the unmapped external state `"UNKNOWN"`. -/
theorem status_mapping_pure_total_witness :
    ("UNKNOWN" : String) ∉ (["SCHEDULED", "PENDING", "RUNNING", "COMPLETED", "FAILED",
        "CANCELLED", "CRASHED"] : List String) ∧
    status_mapping "UNKNOWN" = "pending" :=
  ⟨by decide, status_mapping_pure_total.2.2.2.2.2.2.2 "UNKNOWN" (by decide)⟩

/-- C5 is refuted: with an attempt budget of 1 and the single status query
failing (`check_flow_run_status` returns `success = False`), the loop iteration
performs its one network check but performs *zero* persistence writes, so it is
not the case that every poll iteration writes the mapped status regardless of
whether the status query succeeds or fails. -/
theorem poll_write_every_iteration_counterexample :
    ¬ ((poll_loop (fun _ => PollOutcome.netFail) 1 0 0 []).writes.length =
        (poll_loop (fun _ => PollOutcome.netFail) 1 0 0 []).checks) ∧
    (poll_loop (fun _ => PollOutcome.netFail) 1 0 0 []).checks = 1 ∧
    (poll_loop (fun _ => PollOutcome.netFail) 1 0 0 []).writes = [] := by
  refine ⟨by decide, by decide, by decide⟩

/-- C5 amended: every poll iteration performs exactly one status query, and a
persistence write of the mapped status is performed precisely in the iterations
whose status query succeeds; an iteration whose query fails or raises performs
its network call but no write. -/
theorem poll_write_iff_check_success (env : Nat → PollOutcome) (max_attempts : Nat) :
    (poll_loop env max_attempts 0 0 []).writes =
      (List.range' 0 ((poll_loop env max_attempts 0 0 []).checks) 1).filterMap
        (fun i => match env i with
          | .ok s => some (status_mapping s)
          | _ => none) := by
  have h := poll_loop_writes env max_attempts 0 0 []
  simpa using h

/-- C6: a failure during a poll iteration (failed status query or an exception
raised in the loop body) is swallowed: the iteration performs no write, the
attempt counter is incremented, and the loop carries on exactly as a fresh loop
with one fewer remaining attempt — it never raises and never exits early; and
the loop only ever stops because the attempt budget is exhausted or because its
last check observed a terminal external state. -/
theorem poller_failures_never_halt :
    (∀ (env : Nat → PollOutcome) (fuel attempts checks : Nat) (writes : List String),
      env checks = PollOutcome.netFail ∨ env checks = PollOutcome.exn →
      poll_loop env (fuel + 1) attempts checks writes =
        poll_loop env fuel (attempts + 1) (checks + 1) writes) ∧
    (∀ (env : Nat → PollOutcome) (max_attempts : Nat),
      (poll_flow_status env max_attempts).attempts = max_attempts ∨
      terminalOk env ((poll_flow_status env max_attempts).checks - 1)) := by
  constructor
  · intro env fuel attempts checks writes henv
    rcases henv with henv | henv <;> simp only [poll_loop, henv]
  · intro env max_attempts
    have h := poll_loop_exit env max_attempts 0 0 []
    have hatt : (poll_flow_status env max_attempts).attempts =
        (poll_loop env max_attempts 0 0 []).attempts := by
      simp only [poll_flow_status]
      split <;> simp
    have hchk : (poll_flow_status env max_attempts).checks =
        (poll_loop env max_attempts 0 0 []).checks := by
      simp only [poll_flow_status]
      split <;> simp
    rw [hatt, hchk]
    simpa using h

/-- Witness for C6: an iteration hitting an exception continues as the tail loop. -/
theorem poller_failures_never_halt_witness :
    poll_loop (fun _ => PollOutcome.exn) 1 0 0 [] =
      poll_loop (fun _ => PollOutcome.exn) 0 1 1 [] :=
  poller_failures_never_halt.1 (fun _ => PollOutcome.exn) 0 0 0 [] (Or.inr rfl)

/-! ## Job Record writes and report generation trigger
(`streamlit_app.py`: `update_report_status`, `trigger_prefect_flow`, `reports_page`) -/

/-- The persisted fields of a row of the `reports` table that the poller and the
report-generation action touch. -/
structure Report where
  status : String
  file_path : Option String
  flow_run_id : Option String
deriving DecidableEq, Repr

/-- The terminal lifecycle statuses of the Job Record. -/
def terminal_db_states : List String := ["completed", "failed", "cancelled", "timeout"]

/-- `update_report_status(report_id, status, file_path)`: the `UPDATE reports SET
status = %s [, file_path = %s] WHERE id = %s` statement — it sets the given status
unconditionally, with no guard on the record's current status. -/
def update_report_status (r : Report) (status : String) (file_path : Option String) : Report :=
  match file_path with
  | some fp => { r with status := status, file_path := some fp }
  | none => { r with status := status }

/-- Application, in order, of a poller's status writes to the record
(each loop write calls `update_report_status(report_id, db_status)`). -/
def apply_poller_writes (r : Report) (writes : List String) : Report :=
  writes.foldl (fun rec s => update_report_status rec s none) r

/-- C3: the implementation does not enforce the terminal-state invariant.
First, `update_report_status` overwrites the stored status unconditionally —
no guard on the current status exists.  Second, a reachable execution exhibits a
Job Record in a terminal state being changed by a later poller write: a poller
for the record observes `COMPLETED` on its first check, writes `completed`
(terminal) and exits; a second, uncoordinated poller for the same record (the
acknowledged duplicate-trigger race) observes `RUNNING` and performs the loop's
write of the mapped status `running`, which changes the terminal record. -/
theorem terminal_state_not_enforced :
    (∀ (r : Report) (s : String) (fp : Option String),
      (update_report_status r s fp).status = s) ∧
    ((poll_flow_status (okEnv (fun _ => "COMPLETED")) 600).writes = ["completed"] ∧
      (apply_poller_writes ⟨"scheduled", none, some "abc"⟩
          (poll_flow_status (okEnv (fun _ => "COMPLETED")) 600).writes).status = "completed" ∧
      "completed" ∈ terminal_db_states ∧
      (poll_loop (okEnv (fun _ => "RUNNING")) 1 0 0 []).writes = [status_mapping "RUNNING"] ∧
      (update_report_status
          (apply_poller_writes ⟨"scheduled", none, some "abc"⟩
            (poll_flow_status (okEnv (fun _ => "COMPLETED")) 600).writes)
          (status_mapping "RUNNING") none).status ≠ "completed") := by
  constructor
  · intro r s fp
    cases fp <;> rfl
  · have h := poll_flow_status_ok_run (fun _ => "COMPLETED") 600 0 (by omega)
      (by intro j hj; omega) (by decide)
    rw [h]
    refine ⟨by decide, by decide, by decide, by decide, by decide⟩

/-- Result dict of `trigger_prefect_flow`: `success` plus the flow run id on the
success path (`result.get('id')`). -/
structure TriggerResult where
  success : Bool
  flow_run_id : Option String
deriving DecidableEq, Repr

/-- Outcome of the POST to the Prefect `flow_runs` endpoint. -/
inductive HttpOutcome where
  | ok (flow_run_id : String) (state_type : String)
  | requestError (msg : String)
deriving DecidableEq, Repr

/-- `trigger_prefect_flow(parameters)`: on a successful POST it returns
`{'success': True, 'flow_run_id': result.get('id'), ...}`; on a
`RequestException` it returns `{'success': False, 'error': ..., ...}`. -/
def trigger_prefect_flow (o : HttpOutcome) : TriggerResult :=
  match o with
  | .ok fid _ => ⟨true, some fid⟩
  | .requestError _ => ⟨false, none⟩

/-- The "Gerar Relatório" branch of `reports_page` after the record was inserted
with status `pending`: if the trigger result has `success`, the record gets
`flow_run_id` and status `scheduled` and a polling thread is started (second
component `true`); otherwise the record status is set to `failed` and no polling
thread is started. -/
def generate_report_action (result : TriggerResult) (rec : Report) : Report × Bool :=
  if result.success then
    ({ rec with status := "scheduled", flow_run_id := result.flow_run_id }, true)
  else
    ({ rec with status := "failed" }, false)

/-- C7: when triggering the external flow fails (a `RequestException` makes
`trigger_prefect_flow` return `success = False`), the report-generation action
sets the Job Record's status to `failed` and starts no polling thread; and a
polling thread is started only when the trigger succeeded. -/
theorem trigger_failure_no_poller :
    (∀ (msg : String) (rec : Report),
      (generate_report_action (trigger_prefect_flow (.requestError msg)) rec).1.status = "failed" ∧
      (generate_report_action (trigger_prefect_flow (.requestError msg)) rec).2 = false) ∧
    (∀ (o : HttpOutcome) (rec : Report),
      (generate_report_action (trigger_prefect_flow o) rec).2 = true →
      ∃ fid st, o = .ok fid st ∧ (trigger_prefect_flow o).success = true) := by
  constructor
  · intro msg rec
    exact ⟨rfl, rfl⟩
  · intro o rec h
    cases o with
    | ok fid st => exact ⟨fid, st, rfl, rfl⟩
    | requestError msg => simp [generate_report_action, trigger_prefect_flow] at h

/-- Witness for C7 at a concrete failed trigger. -/
theorem trigger_failure_no_poller_witness :
    (generate_report_action (trigger_prefect_flow (.requestError "connection refused"))
        ⟨"pending", none, none⟩).1.status = "failed" ∧
    (generate_report_action (trigger_prefect_flow (.requestError "connection refused"))
        ⟨"pending", none, none⟩).2 = false :=
  trigger_failure_no_poller.1 "connection refused" ⟨"pending", none, none⟩

/-! ## Pipeline orchestrator (`full_pipeline.py`: `fluxo_principal`) -/

/-- The four tasks of `fluxo_principal`, in their fixed call order. -/
inductive Stage where
  | ingest
  | create_secret
  | raw
  | cleaned
deriving DecidableEq, Repr

/-- `fluxo_principal` calls `ingest(); create_secret(); raw(); cleaned()` in
this fixed order. -/
def fluxo_principal_stages : List Stage := [.ingest, .create_secret, .raw, .cleaned]

/-- Result of one flow run: the stages that began executing, in order, and the
exception (raising stage and message) that propagated to the caller, if any. -/
structure FlowRun where
  executed : List Stage
  error : Option (Stage × String)
deriving DecidableEq, Repr

/-- Sequential execution of a stage list under a behaviour `beh` assigning to
each stage either success (`none`) or a raised exception (`some msg`).  A raised
exception aborts the remaining stages immediately — no retry exists anywhere —
and is recorded as the propagated run-level error. -/
def run_stages (beh : Stage → Option String) : List Stage → FlowRun
  | [] => ⟨[], none⟩
  | s :: rest =>
    match beh s with
    | none =>
      let r := run_stages beh rest
      ⟨s :: r.executed, r.error⟩
    | some msg => ⟨[s], some (s, msg)⟩

/-- `fluxo_principal()` as the sequential run of its fixed stage list. -/
def fluxo_principal (beh : Stage → Option String) : FlowRun :=
  run_stages beh fluxo_principal_stages

lemma run_stages_fail_at (beh : Stage → Option String) :
    ∀ (l : List Stage) (k : Nat) (sk : Stage) (msg : String),
      l.get? k = some sk →
      beh sk = some msg →
      (∀ j, j < k → ∀ sj, l.get? j = some sj → beh sj = none) →
      run_stages beh l = ⟨l.take (k + 1), some (sk, msg)⟩ := by
  intro l
  induction l with
  | nil => intro k sk msg hk; simp at hk
  | cons s rest ih =>
    intro k sk msg hk hbeh hpre
    cases k with
    | zero =>
      simp only [List.get?] at hk
      cases hk
      simp [run_stages, hbeh]
    | succ k =>
      have hs : beh s = none := hpre 0 (Nat.succ_pos k) s rfl
      simp only [List.get?] at hk
      simp only [run_stages, hs]
      rw [ih k sk msg hk hbeh
        (fun j hj sj hsj => hpre (j + 1) (Nat.succ_lt_succ hj) sj hsj)]
      simp [List.take]

/-- C8: in `fluxo_principal`'s fixed stage sequence
`ingest → create_secret → raw → cleaned`, if the stage at position `k` raises
while all earlier stages succeed, then exactly the stages up to and including
position `k` execute (so no stage after `k` runs and no stage is retried — each
executes at most once), and the exception propagates out of the flow as the
run-level error. -/
theorem pipeline_stage_failure_aborts
    (beh : Stage → Option String) (k : Nat) (sk : Stage) (msg : String)
    (hk : fluxo_principal_stages.get? k = some sk)
    (hbeh : beh sk = some msg)
    (hpre : ∀ j, j < k → ∀ sj, fluxo_principal_stages.get? j = some sj → beh sj = none) :
    (fluxo_principal beh).executed = fluxo_principal_stages.take (k + 1) ∧
    (fluxo_principal beh).error = some (sk, msg) ∧
    (fluxo_principal beh).executed.Nodup ∧
    (∀ s, s ∈ fluxo_principal_stages.drop (k + 1) → s ∉ (fluxo_principal beh).executed) := by
  have h := run_stages_fail_at beh fluxo_principal_stages k sk msg hk hbeh hpre
  unfold fluxo_principal
  rw [h]
  have hnodup : fluxo_principal_stages.Nodup := by decide
  have htake : (fluxo_principal_stages.take (k + 1)).Nodup :=
    hnodup.sublist (List.take_sublist (k + 1) fluxo_principal_stages)
  refine ⟨rfl, rfl, htake, ?_⟩
  intro s hdrop htakemem
  have hdisj := List.disjoint_take_drop (l := fluxo_principal_stages) hnodup (le_refl (k + 1))
  exact hdisj htakemem hdrop

/-- Witness for C8: the `raw` stage (position 2) raises; `ingest` and
`create_secret` execute, `cleaned` does not, and the error propagates. -/
theorem pipeline_stage_failure_aborts_witness :
    (fluxo_principal_stages.get? 2 = some Stage.raw ∧
      (fun s => if s = Stage.raw then some "io error" else none) Stage.raw = some "io error") ∧
    ((fluxo_principal (fun s => if s = Stage.raw then some "io error" else none)).executed =
        fluxo_principal_stages.take 3 ∧
      (fluxo_principal (fun s => if s = Stage.raw then some "io error" else none)).error =
        some (Stage.raw, "io error")) :=
  ⟨⟨by decide, by decide⟩,
    ⟨(pipeline_stage_failure_aborts (fun s => if s = Stage.raw then some "io error" else none)
        2 Stage.raw "io error" (by decide) (by decide) (by decide)).1,
      (pipeline_stage_failure_aborts (fun s => if s = Stage.raw then some "io error" else none)
        2 Stage.raw "io error" (by decide) (by decide) (by decide)).2.1⟩⟩

/-! ## Login rate limiting (`streamlit_app.py`: `check_rate_limit`,
`record_login_attempt`, `authenticate`)

The session-scoped `LOGIN_ATTEMPTS` dict is modelled as a map
`String → Option AttemptData`; `time.time()` values are modelled as integers. -/

/-- `MAX_LOGIN_ATTEMPTS = 5`. -/
def MAX_LOGIN_ATTEMPTS : Nat := 5

/-- `LOCKOUT_DURATION = 300` seconds. -/
def LOCKOUT_DURATION : Int := 300

/-- One entry of `LOGIN_ATTEMPTS`: `{'count': ..., 'timestamp': ...}`. -/
structure AttemptData where
  count : Nat
  timestamp : Int
deriving DecidableEq, Repr

/-- The `LOGIN_ATTEMPTS` dict keyed by identifier (email). -/
def LoginAttempts : Type := String → Option AttemptData

/-- `check_rate_limit(identifier)`: returns the (possibly mutated) attempts map,
the `allowed` flag and `time_remaining`.  An absent identifier is allowed; an
entry older than `LOCKOUT_DURATION` is deleted and allowed; an entry with
`count >= MAX_LOGIN_ATTEMPTS` inside the window is refused with the remaining
lockout time; otherwise allowed. -/
def check_rate_limit (attempts : LoginAttempts) (now : Int) (identifier : String) :
    LoginAttempts × Bool × Int :=
  match attempts identifier with
  | none => (attempts, true, 0)
  | some ad =>
    if LOCKOUT_DURATION < now - ad.timestamp then
      (fun k => if k = identifier then none else attempts k, true, 0)
    else if MAX_LOGIN_ATTEMPTS ≤ ad.count then
      (attempts, false, LOCKOUT_DURATION - (now - ad.timestamp))
    else (attempts, true, 0)

/-- `record_login_attempt(identifier, success)`: a success deletes the
identifier's entry; a failure creates the entry with count 1 or increments the
count, stamping the current time. -/
def record_login_attempt (attempts : LoginAttempts) (now : Int) (identifier : String)
    (success : Bool) : LoginAttempts :=
  if success then
    fun k => if k = identifier then none else attempts k
  else
    match attempts identifier with
    | none => fun k => if k = identifier then some ⟨1, now⟩ else attempts k
    | some ad => fun k => if k = identifier then some ⟨ad.count + 1, now⟩ else attempts k

/-- Observable outcome of `authenticate(email, password)`: the user tuple
(`success`), `None` (`failure`; wrong credentials, invalid email or database
error), or the rate-limit `Exception` raised before the try block
(`rateLimited`, with the reported remaining seconds). -/
inductive AuthOutcome where
  | success
  | failure
  | rateLimited (time_remaining : Int)
deriving DecidableEq, Repr

/-- `authenticate(email, password)`: validates the email, consults
`check_rate_limit` (raising the rate-limit exception when refused), then checks
credentials against the database (`creds : Except Unit Bool`, where `.error`
models a database exception caught and turned into `None`, and `.ok b` models a
completed lookup with `b` true iff the user exists and the password verifies),
recording the attempt on both credential outcomes. -/
def authenticate (attempts : LoginAttempts) (now : Int) (email : String)
    (email_valid : Bool) (creds : Except Unit Bool) : LoginAttempts × AuthOutcome :=
  if !email_valid then (attempts, .failure)
  else
    let r := check_rate_limit attempts now email
    if !r.2.1 then (r.1, .rateLimited r.2.2)
    else
      match creds with
      | .error _ => (r.1, .failure)
      | .ok true => (record_login_attempt r.1 now email true, .success)
      | .ok false => (record_login_attempt r.1 now email false, .failure)

/-- C9: login is rate-limited per identifier with a fixed ceiling and lockout.
Recorded failures build the per-identifier count up to the ceiling (first
failure creates the entry with count 1, each further failure increments it and
refreshes the timestamp); once the count has reached `MAX_LOGIN_ATTEMPTS = 5`,
every `authenticate` call for that email within `LOCKOUT_DURATION = 300`
seconds of the last failed attempt yields the rate-limit exception (an outcome
distinct from the `None` of wrong credentials), whatever the submitted
credentials; a successful login deletes the identifier's entry; and once more
than 300 seconds have elapsed since the last failed attempt the entry is
cleared by the next check and the attempt is allowed. -/
theorem login_rate_limited :
    (∀ (m : LoginAttempts) (now : Int) (email : String),
      m email = none →
      record_login_attempt m now email false email = some ⟨1, now⟩) ∧
    (∀ (m : LoginAttempts) (now : Int) (email : String) (ad : AttemptData),
      m email = some ad →
      record_login_attempt m now email false email = some ⟨ad.count + 1, now⟩) ∧
    (∀ (m : LoginAttempts) (now : Int) (email : String) (ad : AttemptData)
        (creds : Except Unit Bool),
      m email = some ad →
      MAX_LOGIN_ATTEMPTS ≤ ad.count →
      now - ad.timestamp ≤ LOCKOUT_DURATION →
      (authenticate m now email true creds).2 =
        .rateLimited (LOCKOUT_DURATION - (now - ad.timestamp))) ∧
    (∀ (r : Int), AuthOutcome.rateLimited r ≠ .failure) ∧
    (∀ (m : LoginAttempts) (now : Int) (email : String),
      record_login_attempt m now email true email = none) ∧
    (∀ (m : LoginAttempts) (now : Int) (email : String) (ad : AttemptData),
      m email = some ad →
      LOCKOUT_DURATION < now - ad.timestamp →
      (check_rate_limit m now email).2.1 = true ∧
      (check_rate_limit m now email).1 email = none) := by
  refine ⟨?_, ?_, ?_, ?_, ?_, ?_⟩
  · intro m now email hm
    simp [record_login_attempt, hm]
  · intro m now email ad hm
    simp [record_login_attempt, hm]
  · intro m now email ad creds hm hcount hwin
    have hr : check_rate_limit m now email =
        (m, false, LOCKOUT_DURATION - (now - ad.timestamp)) := by
      simp only [check_rate_limit, hm]
      rw [if_neg (by omega), if_pos hcount]
    simp [authenticate, hr]
  · intro r h
    cases h
  · intro m now email
    simp [record_login_attempt]
  · intro m now email ad hm hold
    simp [check_rate_limit, hm, hold]

/-- Witness for C9: an identifier with five recorded failures at time 0 is
locked out at time 100 with 200 seconds remaining. -/
theorem login_rate_limited_witness :
    ((fun k => if k = "user@mail.com" then some (⟨5, 0⟩ : AttemptData) else none)
        "user@mail.com" = some ⟨5, 0⟩ ∧
      MAX_LOGIN_ATTEMPTS ≤ 5 ∧ (100 : Int) - 0 ≤ LOCKOUT_DURATION) ∧
    (authenticate (fun k => if k = "user@mail.com" then some ⟨5, 0⟩ else none)
        100 "user@mail.com" true (.ok true)).2 = .rateLimited 200 :=
  ⟨⟨by simp, by decide, by decide⟩, by
    have h := login_rate_limited.2.2.1
      (fun k => if k = "user@mail.com" then some ⟨5, 0⟩ else none)
      100 "user@mail.com" ⟨5, 0⟩ (.ok true) (by simp) (by decide) (by decide)
    simpa using h⟩

/-! ## Audit log detail serialization (`streamlit_app.py`: `log_audit`)

`log_audit` stores `json.dumps(details) if details else None` into the JSONB
`details` column of `audit_logs`.  JSON values are modelled by `Json` (numbers
as integers — the payloads the application passes are strings and identifiers);
`printValue` follows CPython's `json.dumps` with its default arguments
(`ensure_ascii=True`, separators `', '` and `': '`), and the re-read side of
the round-trip (the JSONB column being parsed back) is a JSON parser. -/

/-- A JSON value: the shape of a JSON-serializable `details` payload. -/
inductive Json where
  | null
  | bool (b : Bool)
  | int (n : Int)
  | str (s : String)
  | arr (elems : List Json)
  | obj (fields : List (String × Json))
deriving Repr

/-- Decimal digits of `n`, most significant first, with structural fuel
(`natDigitsAux (n+1) n` always has enough fuel).  Matches Python's `repr` of a
non-negative integer. -/
def natDigitsAux : Nat → Nat → List Char
  | 0, _ => []
  | fuel + 1, n =>
    if n < 10 then [Nat.digitChar n]
    else natDigitsAux fuel (n / 10) ++ [Nat.digitChar (n % 10)]

/-- Decimal digit string of a natural number. -/
def natDigits (n : Nat) : List Char := natDigitsAux (n + 1) n

/-- The `\uXXXX` escape (four lowercase hex digits) emitted by `json.dumps`
for a code unit `n < 0x10000`. -/
def uEsc (n : Nat) : List Char :=
  ['\\', 'u', Nat.digitChar (n / 4096 % 16), Nat.digitChar (n / 256 % 16),
   Nat.digitChar (n / 16 % 16), Nat.digitChar (n % 16)]

/-- CPython's `py_encode_basestring_ascii` escaping of one character
(`ensure_ascii=True`, the `json.dumps` default): backslash, quote and the named
control shorthands use two-character escapes; any other character outside
`0x20..0x7E` becomes `\uXXXX`, as a surrogate pair when above `0xFFFF`;
everything else is emitted literally. -/
def escapeChar (c : Char) : List Char :=
  if c = '\\' then ['\\', '\\']
  else if c = '"' then ['\\', '"']
  else if c = Char.ofNat 8 then ['\\', 'b']
  else if c = Char.ofNat 12 then ['\\', 'f']
  else if c = '\n' then ['\\', 'n']
  else if c = Char.ofNat 13 then ['\\', 'r']
  else if c = '\t' then ['\\', 't']
  else if c.toNat < 0x20 ∨ 0x7E < c.toNat then
    if c.toNat < 0x10000 then uEsc c.toNat
    else uEsc (0xD800 + (c.toNat - 0x10000) / 0x400) ++
      uEsc (0xDC00 + (c.toNat - 0x10000) % 0x400)
  else [c]

/-- A JSON string literal as `json.dumps` prints it. -/
def printStr (s : String) : List Char := '"' :: (s.data.flatMap escapeChar ++ ['"'])

mutual
/-- The output of `json.dumps` on a JSON value, with the default separators
`', '` between items and `': '` between a key and its value. -/
def printValue : Json → List Char
  | .bool b => if b then ['t', 'r', 'u', 'e'] else ['f', 'a', 'l', 's', 'e']
  | .null => ['n', 'u', 'l', 'l']
  | .int n => if n < 0 then '-' :: natDigits (-n).toNat else natDigits n.toNat
  | .str s => printStr s
  | .arr xs => '[' :: (printElems xs ++ [']'])
  | .obj ms => '{' :: (printMembers ms ++ ['}'])

/-- Array elements joined by `', '`. -/
def printElems : List Json → List Char
  | [] => []
  | [x] => printValue x
  | x :: y :: t => printValue x ++ ',' :: ' ' :: printElems (y :: t)

/-- Object members `"key": value` joined by `', '`. -/
def printMembers : List (String × Json) → List Char
  | [] => []
  | [(k, v)] => printStr k ++ ':' :: ' ' :: printValue v
  | (k, v) :: m :: t =>
    (printStr k ++ ':' :: ' ' :: printValue v) ++ ',' :: ' ' :: printMembers (m :: t)
end

/-- `json.dumps`. -/
def dumps (v : Json) : String := String.mk (printValue v)

/-- The serialization `log_audit` applies to its `details` argument before the
INSERT: `json.dumps(details) if details else None` — an absent *or empty* dict
is stored as SQL NULL. -/
def serialize_details (details : Option (List (String × Json))) : Option String :=
  match details with
  | none => none
  | some d => if d.isEmpty then none else some (dumps (Json.obj d))

/-- Value of a hexadecimal digit character. -/
def hexVal (c : Char) : Option Nat :=
  if '0' ≤ c ∧ c ≤ '9' then some (c.toNat - 48)
  else if 'a' ≤ c ∧ c ≤ 'f' then some (c.toNat - 87)
  else if 'A' ≤ c ∧ c ≤ 'F' then some (c.toNat - 55)
  else none

/-- Value of a four-hex-digit group. -/
def hex4 (a b c d : Char) : Option Nat :=
  match hexVal a, hexVal b, hexVal c, hexVal d with
  | some x, some y, some z, some w => some (((x * 16 + y) * 16 + z) * 16 + w)
  | _, _, _, _ => none

/-- One four-hex-digit group of a `\\uXXXX` escape. -/
def parseUHex : List Char → Option (Nat × List Char)
  | h1 :: h2 :: h3 :: h4 :: rest => (hex4 h1 h2 h3 h4).map (fun n => (n, rest))
  | _ => none

/-- A `uXXXX` escape body (after `\\u`), decoding a UTF-16 surrogate pair when
the first group is a high surrogate. -/
def parseUEscape (cs : List Char) : Option (Char × List Char) :=
  match parseUHex cs with
  | none => none
  | some (n, rest) =>
    if 0xD800 ≤ n ∧ n < 0xDC00 then
      match rest with
      | b1 :: b2 :: rest2 =>
        if b1 = '\\' ∧ b2 = 'u' then
          match parseUHex rest2 with
          | none => none
          | some (m, rest3) =>
            if 0xDC00 ≤ m ∧ m < 0xE000 then
              some (Char.ofNat (0x10000 + (n - 0xD800) * 0x400 + (m - 0xDC00)), rest3)
            else none
        else none
      | _ => none
    else some (Char.ofNat n, rest)

/-- The character following a backslash inside a JSON string literal. -/
def parseEscape : List Char → Option (Char × List Char)
  | [] => none
  | e :: rest =>
    if e = '"' then some ('"', rest)
    else if e = '\\' then some ('\\', rest)
    else if e = '/' then some ('/', rest)
    else if e = 'b' then some (Char.ofNat 8, rest)
    else if e = 'f' then some (Char.ofNat 12, rest)
    else if e = 'n' then some ('\n', rest)
    else if e = 'r' then some (Char.ofNat 13, rest)
    else if e = 't' then some ('\t', rest)
    else if e = 'u' then parseUEscape rest
    else none

/-- Modelled from the spec: the deserialization of a stored JSON string
(`audit_logs.details` is re-read from the JSONB column, which is not code of
this repository).  Body of a JSON string literal after the opening quote:
consumes characters and escapes up to the closing quote, with fuel decreasing
on every consumed string character. -/
def parseJStringChars : Nat → List Char → Option (List Char × List Char)
  | 0, _ => none
  | fuel + 1, cs =>
    match cs with
    | [] => none
    | c :: rest =>
      if c = '"' then some ([], rest)
      else if c = '\\' then
        match parseEscape rest with
        | none => none
        | some (ch, rest2) =>
          (parseJStringChars fuel rest2).map (fun p => (ch :: p.1, p.2))
      else (parseJStringChars fuel rest).map (fun p => (c :: p.1, p.2))

/-- Longest digit prefix of a character list, with the remainder. -/
def takeDigits : List Char → List Char × List Char
  | [] => ([], [])
  | c :: rest =>
    if c.isDigit then
      let p := takeDigits rest
      (c :: p.1, p.2)
    else ([], c :: rest)

/-- Decimal value of a digit string. -/
def digitsToNat (ds : List Char) : Nat :=
  ds.foldl (fun acc c => acc * 10 + (c.toNat - 48)) 0

/-- Modelled from the spec (re-read side): an unsigned decimal integer literal,
parsed greedily. -/
def parseNatChars (cs : List Char) : Option (Nat × List Char) :=
  let p := takeDigits cs
  if p.1 = [] then none else some (digitsToNat p.1, p.2)

/-- The tail of the keyword `null` after its leading `n`. -/
def parseNullBody : List Char → Option (Json × List Char)
  | c1 :: c2 :: c3 :: rest =>
    if c1 = 'u' ∧ c2 = 'l' ∧ c3 = 'l' then some (.null, rest) else none
  | _ => none

/-- The tail of the keyword `true` after its leading `t`. -/
def parseTrueBody : List Char → Option (Json × List Char)
  | c1 :: c2 :: c3 :: rest =>
    if c1 = 'r' ∧ c2 = 'u' ∧ c3 = 'e' then some (.bool true, rest) else none
  | _ => none

/-- The tail of the keyword `false` after its leading `f`. -/
def parseFalseBody : List Char → Option (Json × List Char)
  | c1 :: c2 :: c3 :: c4 :: rest =>
    if c1 = 'a' ∧ c2 = 'l' ∧ c3 = 's' ∧ c4 = 'e' then some (.bool false, rest) else none
  | _ => none

mutual
/-- Modelled from the spec (re-read side): a JSON value parser over the exact
output format of `printValue`, with fuel decreasing on every parser call. -/
def parseValue : Nat → List Char → Option (Json × List Char)
  | 0, _ => none
  | fuel + 1, cs =>
    match cs with
    | [] => none
    | c :: rest =>
      if c = '[' then
        if rest.head? = some ']' then some (.arr [], rest.tail)
        else (parseElems fuel rest).map (fun p => (Json.arr p.1, p.2))
      else if c = '{' then
        if rest.head? = some '}' then some (.obj [], rest.tail)
        else (parseMembers fuel rest).map (fun p => (Json.obj p.1, p.2))
      else if c = '"' then
        (parseJStringChars (rest.length + 1) rest).map
          (fun p => (Json.str (String.mk p.1), p.2))
      else if c = 'n' then parseNullBody rest
      else if c = 't' then parseTrueBody rest
      else if c = 'f' then parseFalseBody rest
      else if c = '-' then
        (parseNatChars rest).map (fun p => (Json.int (-(p.1 : Int)), p.2))
      else
        (parseNatChars (c :: rest)).map (fun p => (Json.int (p.1 : Int), p.2))

/-- One or more `', '`-separated array elements followed by `']'`. -/
def parseElems : Nat → List Char → Option (List Json × List Char)
  | 0, _ => none
  | fuel + 1, cs =>
    match parseValue fuel cs with
    | none => none
    | some (v, rest) =>
      if rest.head? = some ']' then some ([v], rest.tail)
      else if rest.take 2 = [',', ' '] then
        match parseElems fuel (rest.drop 2) with
        | none => none
        | some (vs, rest2) => some (v :: vs, rest2)
      else none

/-- One or more `', '`-separated `"key": value` members followed by `'}'`. -/
def parseMembers : Nat → List Char → Option (List (String × Json) × List Char)
  | 0, _ => none
  | fuel + 1, cs =>
    match cs with
    | [] => none
    | c :: rest =>
      if c = '"' then
        match parseJStringChars (rest.length + 1) rest with
        | none => none
        | some (k, rest2) =>
          if rest2.take 2 = [':', ' '] then
            match parseValue fuel (rest2.drop 2) with
            | none => none
            | some (v, rest3) =>
              if rest3.head? = some '}' then some ([(String.mk k, v)], rest3.tail)
              else if rest3.take 2 = [',', ' '] then
                match parseMembers fuel (rest3.drop 2) with
                | none => none
                | some (ms, rest4) => some ((String.mk k, v) :: ms, rest4)
              else none
          else none
      else none
end

/-- Modelled from the spec (re-read side): `json.loads` of an entire string —
a parsed JSON value with no remaining input. -/
def loads (s : String) : Option Json :=
  match parseValue (s.data.length + 1) s.data with
  | none => none
  | some p => if p.2 = [] then some p.1 else none

/-- Modelled from the spec: re-reading the persisted `details` column — SQL
NULL reads back as no payload, and stored JSON text is deserialized. -/
def deserialize_details (stored : Option String) : Option Json :=
  match stored with
  | none => none
  | some s => loads s

mutual
/-- Fuel budget sufficient to parse `printValue v`: one unit per parser call. -/
def cost : Json → Nat
  | .null => 1
  | .bool _ => 1
  | .int _ => 1
  | .str _ => 1
  | .arr xs => 1 + costElems xs
  | .obj ms => 1 + costMembers ms

/-- Fuel budget for the element list of an array. -/
def costElems : List Json → Nat
  | [] => 0
  | x :: t => 1 + cost x + costElems t

/-- Fuel budget for the member list of an object. -/
def costMembers : List (String × Json) → Nat
  | [] => 0
  | p :: t => 1 + cost p.2 + costMembers t
end

lemma natDigitsAux_irrel : ∀ (n fuel fuel' : Nat), n < fuel → n < fuel' →
    natDigitsAux fuel n = natDigitsAux fuel' n := by
  intro n
  induction n using Nat.strong_induction_on with
  | _ n ih =>
    intro fuel fuel' hf hf'
    match fuel, hf with
    | fuel + 1, hf =>
    match fuel', hf' with
    | fuel' + 1, hf' =>
      simp only [natDigitsAux]
      by_cases h : n < 10
      · simp [h]
      · rw [if_neg h, if_neg h, ih (n / 10) (by omega) fuel fuel' (by omega) (by omega)]

/-- Unfolding rule for `natDigits` in its mathematical form. -/
lemma natDigits_eq (n : Nat) :
    natDigits n =
      if n < 10 then [Nat.digitChar n]
      else natDigits (n / 10) ++ [Nat.digitChar (n % 10)] := by
  show natDigitsAux (n + 1) n = _
  simp only [natDigitsAux]
  by_cases h : n < 10
  · simp [h]
  · rw [if_neg h, if_neg h,
      natDigitsAux_irrel (n / 10) n (n / 10 + 1) (by omega) (by omega)]
    rfl

lemma digitChar_isDigit : ∀ d, d < 10 → (Nat.digitChar d).isDigit = true := by decide

lemma digitChar_sub48 : ∀ d, d < 10 → (Nat.digitChar d).toNat - 48 = d := by decide

lemma hexVal_digitChar : ∀ d, d < 16 → hexVal (Nat.digitChar d) = some d := by decide

lemma natDigits_ne_nil (n : Nat) : natDigits n ≠ [] := by
  rw [natDigits_eq]
  split
  · simp
  · simp

lemma natDigits_isDigit : ∀ n c, c ∈ natDigits n → c.isDigit = true := by
  intro n
  induction n using Nat.strong_induction_on with
  | _ n ih =>
    intro c hc
    rw [natDigits_eq] at hc
    by_cases h : n < 10
    · rw [if_pos h] at hc
      simp only [List.mem_singleton] at hc
      subst hc
      exact digitChar_isDigit n h
    · rw [if_neg h, List.mem_append] at hc
      obtain hmem | hmem := hc
      · exact ih (n / 10) (by omega) c hmem
      · simp only [List.mem_singleton] at hmem
        subst hmem
        exact digitChar_isDigit (n % 10) (by omega)

lemma digitsToNat_go : ∀ n acc,
    List.foldl (fun acc c => acc * 10 + (c.toNat - 48)) acc (natDigits n) =
      acc * 10 ^ (natDigits n).length + n := by
  intro n
  induction n using Nat.strong_induction_on with
  | _ n ih =>
    intro acc
    by_cases h : n < 10
    · rw [natDigits_eq, if_pos h]
      simp [digitChar_sub48 n h]
    · rw [natDigits_eq, if_neg h, List.foldl_append, ih (n / 10) (by omega) acc]
      simp only [List.foldl_cons, List.foldl_nil, List.length_append, List.length_cons,
        List.length_nil, Nat.zero_add]
      rw [digitChar_sub48 (n % 10) (by omega)]
      have hdm : n / 10 * 10 + n % 10 = n := by omega
      calc (acc * 10 ^ (natDigits (n / 10)).length + n / 10) * 10 + n % 10
          = acc * (10 ^ (natDigits (n / 10)).length * 10) + (n / 10 * 10 + n % 10) := by
            ring
        _ = acc * 10 ^ ((natDigits (n / 10)).length + 1) + n := by rw [hdm, pow_succ]

lemma digitsToNat_natDigits (n : Nat) : digitsToNat (natDigits n) = n := by
  have h := digitsToNat_go n 0
  simpa [digitsToNat] using h

/-- The continuation after a printed token must not begin with a decimal digit
(the integer parser is greedy). -/
def NoDigitHead (cs : List Char) : Prop :=
  ∀ c, cs.head? = some c → c.isDigit = false

lemma noDigitHead_nil : NoDigitHead [] := by
  intro c h
  cases h

lemma noDigitHead_cons {c : Char} (l : List Char) (hc : c.isDigit = false) :
    NoDigitHead (c :: l) := by
  intro c' h
  simp only [List.head?] at h
  cases h
  exact hc

lemma takeDigits_append : ∀ (ds rest : List Char),
    (∀ c ∈ ds, c.isDigit = true) → NoDigitHead rest →
    takeDigits (ds ++ rest) = (ds, rest) := by
  intro ds
  induction ds with
  | nil =>
    intro rest _ hrest
    cases rest with
    | nil => rfl
    | cons c r =>
      have hc : c.isDigit = false := hrest c rfl
      simp [takeDigits, hc]
  | cons c ds ih =>
    intro rest hds hrest
    have hc : c.isDigit = true := hds c (by simp)
    simp only [List.cons_append, takeDigits, hc, if_true, List.append_eq]
    rw [ih rest (fun x hx => hds x (by simp [hx])) hrest]

lemma parseNatChars_natDigits (n : Nat) (rest : List Char) (hrest : NoDigitHead rest) :
    parseNatChars (natDigits n ++ rest) = some (n, rest) := by
  simp only [parseNatChars,
    takeDigits_append (natDigits n) rest (natDigits_isDigit n) hrest]
  rw [if_neg (by simpa using natDigits_ne_nil n)]
  simp [digitsToNat_natDigits]

lemma hex4_digits (m : Nat) (hm : m < 65536) :
    hex4 (Nat.digitChar (m / 4096 % 16)) (Nat.digitChar (m / 256 % 16))
      (Nat.digitChar (m / 16 % 16)) (Nat.digitChar (m % 16)) = some m := by
  simp only [hex4, hexVal_digitChar (m / 4096 % 16) (by omega),
    hexVal_digitChar (m / 256 % 16) (by omega),
    hexVal_digitChar (m / 16 % 16) (by omega),
    hexVal_digitChar (m % 16) (by omega)]
  simp only [Option.some.injEq]
  omega

/-- Every character is a valid unicode scalar value, at the `Nat` level. -/
lemma char_toNat_valid (c : Char) :
    c.toNat < 0xD800 ∨ (0xDFFF < c.toNat ∧ c.toNat < 0x110000) := c.valid


/-- Unfolding step: a backslash starts an escape. -/
lemma parseJStringChars_backslash (fuel : Nat) (rest : List Char) :
    parseJStringChars (fuel + 1) ('\\' :: rest) =
      match parseEscape rest with
      | none => none
      | some (ch, rest2) =>
        (parseJStringChars fuel rest2).map (fun p => (ch :: p.1, p.2)) := by
  simp [parseJStringChars]

/-- Unfolding step: a `u` escape defers to `parseUEscape`. -/
lemma parseEscape_u (T : List Char) : parseEscape ('u' :: T) = parseUEscape T := by
  simp [parseEscape]

/-- A high surrogate's four hex digits followed by a low surrogate's escape
recombine into the encoded scalar value. -/
lemma parseUEscape_pair (hi lo : Nat) (T : List Char)
    (hhi1 : 0xD800 ≤ hi) (hhi2 : hi < 0xDC00) (hlo1 : 0xDC00 ≤ lo) (hlo2 : lo < 0xE000) :
    parseUEscape (Nat.digitChar (hi / 4096 % 16) :: Nat.digitChar (hi / 256 % 16) ::
      Nat.digitChar (hi / 16 % 16) :: Nat.digitChar (hi % 16) :: '\\' :: 'u' ::
      Nat.digitChar (lo / 4096 % 16) :: Nat.digitChar (lo / 256 % 16) ::
      Nat.digitChar (lo / 16 % 16) :: Nat.digitChar (lo % 16) :: T) =
      some (Char.ofNat (0x10000 + (hi - 0xD800) * 0x400 + (lo - 0xDC00)), T) := by
  simp [parseUEscape, parseUHex, hex4_digits hi (by omega), hex4_digits lo (by omega),
    hhi1, hhi2, hlo1, hlo2]

/-- Round trip for string bodies: parsing the escaped print of `cs` followed by
the closing quote recovers `cs` exactly and leaves the continuation intact. -/
lemma parseJStringChars_print : ∀ (cs : List Char) (fuel : Nat) (rest : List Char),
    cs.length < fuel →
    parseJStringChars fuel (cs.flatMap escapeChar ++ '"' :: rest) = some (cs, rest) := by
  intro cs
  induction cs with
  | nil =>
    intro fuel rest hf
    match fuel, hf with
    | fuel + 1, _ => simp [parseJStringChars]
  | cons c cs ih =>
    intro fuel rest hf
    match fuel, hf with
    | fuel + 1, hf =>
      have hfuel : cs.length < fuel := by simp at hf; omega
      simp only [List.flatMap_cons, List.append_assoc]
      rw [escapeChar]
      split_ifs with h1 h2 h3 h4 h5 h6 h7 h8 h9
      · subst h1
        simp [parseJStringChars, parseEscape, ih fuel rest hfuel]
      · subst h2
        simp [parseJStringChars, parseEscape, ih fuel rest hfuel]
      · subst h3
        simp [parseJStringChars, parseEscape, ih fuel rest hfuel]
      · subst h4
        simp [parseJStringChars, parseEscape, ih fuel rest hfuel]
      · subst h5
        simp [parseJStringChars, parseEscape, ih fuel rest hfuel]
      · subst h6
        simp [parseJStringChars, parseEscape, ih fuel rest hfuel]
      · subst h7
        simp [parseJStringChars, parseEscape, ih fuel rest hfuel]
      · have hguard : ¬ (0xD800 ≤ c.toNat ∧ c.toNat < 0xDC00) := by
          rcases char_toNat_valid c with h | h <;> omega
        simp [uEsc, parseJStringChars, parseEscape, parseUEscape, parseUHex,
          hex4_digits c.toNat (by omega), hguard, ih fuel rest hfuel]
      · have ht : c.toNat < 0x110000 := by
          rcases char_toNat_valid c with h | h <;> omega
        have ht0 : 0x10000 ≤ c.toNat := by omega
        have hg1 : 0xD800 ≤ 0xD800 + (c.toNat - 0x10000) / 0x400 ∧
            0xD800 + (c.toNat - 0x10000) / 0x400 < 0xDC00 := by omega
        have hg2 : 0xDC00 ≤ 0xDC00 + (c.toNat - 0x10000) % 0x400 ∧
            0xDC00 + (c.toNat - 0x10000) % 0x400 < 0xE000 := by omega
        have hX : Char.ofNat (0x10000 + (c.toNat - 0x10000) / 0x400 * 0x400 +
            (c.toNat - 0x10000) % 0x400) = c := by
          rw [show 0x10000 + (c.toNat - 0x10000) / 0x400 * 0x400 +
              (c.toNat - 0x10000) % 0x400 = c.toNat by omega,
            Char.ofNat_toNat]
        simp only [uEsc, List.cons_append, List.nil_append, List.append_assoc]
        rw [parseJStringChars_backslash, parseEscape_u,
          parseUEscape_pair (0xD800 + (c.toNat - 0x10000) / 0x400)
            (0xDC00 + (c.toNat - 0x10000) % 0x400) _
            (by omega) (by omega) (by omega) (by omega)]
        simp [ih fuel rest hfuel, hX]
      · simp [parseJStringChars, h1, h2, ih fuel rest hfuel]

lemma escapeChar_length_pos (c : Char) : 1 ≤ (escapeChar c).length := by
  rw [escapeChar]
  split_ifs <;> simp [uEsc]

lemma flatMap_escape_length (cs : List Char) :
    cs.length ≤ (cs.flatMap escapeChar).length := by
  induction cs with
  | nil => simp
  | cons c cs ih =>
    have h := escapeChar_length_pos c
    simp only [List.flatMap_cons, List.length_append, List.length_cons]
    omega

lemma cost_pos : ∀ v : Json, 1 ≤ cost v := by
  intro v
  cases v <;> simp [cost]

lemma natDigits_head (n : Nat) :
    ∃ d ds, natDigits n = d :: ds ∧ d.isDigit = true := by
  obtain ⟨d, ds, h⟩ := List.exists_cons_of_ne_nil (natDigits_ne_nil n)
  exact ⟨d, ds, h, natDigits_isDigit n d (by rw [h]; simp)⟩

lemma digit_head_ne (c : Char) (h : c.isDigit = true) :
    c ≠ '[' ∧ c ≠ '{' ∧ c ≠ '"' ∧ c ≠ 'n' ∧ c ≠ 't' ∧ c ≠ 'f' ∧ c ≠ '-' := by
  refine ⟨?_, ?_, ?_, ?_, ?_, ?_, ?_⟩ <;>
    exact fun heq => absurd h (by subst heq; decide)

/-- The first character printed for a value is never a closing delimiter. -/
lemma printValue_head (v : Json) :
    ∃ c cs, printValue v = c :: cs ∧ c ≠ ']' ∧ c ≠ '}' := by
  cases v with
  | null =>
    refine ⟨'n', _, rfl, ?_, ?_⟩ <;> decide
  | bool b =>
    cases b
    · refine ⟨'f', _, rfl, ?_, ?_⟩ <;> decide
    · refine ⟨'t', _, rfl, ?_, ?_⟩ <;> decide
  | int n =>
    by_cases h : n < 0
    · exact ⟨'-', natDigits (-n).toNat, by simp [printValue, h], by decide, by decide⟩
    · obtain ⟨d, ds, hnd, hd⟩ := natDigits_head n.toNat
      refine ⟨d, ds, by simp [printValue, h, hnd], ?_, ?_⟩
      · exact fun heq => absurd hd (by subst heq; decide)
      · exact fun heq => absurd hd (by subst heq; decide)
  | str s =>
    refine ⟨'"', _, rfl, ?_, ?_⟩ <;> decide
  | arr xs =>
    refine ⟨'[', _, rfl, ?_, ?_⟩ <;> decide
  | obj ms =>
    refine ⟨'{', _, rfl, ?_, ?_⟩ <;> decide

lemma printElems_cons_head (x : Json) (t : List Json) (c : Char) (cs : List Char)
    (h : printValue x = c :: cs) : ∃ w, printElems (x :: t) = c :: w := by
  cases t with
  | nil => exact ⟨cs, by simp [printElems, h]⟩
  | cons y t' => exact ⟨cs ++ ',' :: ' ' :: printElems (y :: t'), by simp [printElems, h]⟩

lemma printMembers_cons_head (k : String) (v : Json) (t : List (String × Json)) :
    ∃ w, printMembers ((k, v) :: t) = '"' :: w := by
  cases t with
  | nil =>
    exact ⟨(k.data.flatMap escapeChar ++ ['"']) ++ ':' :: ' ' :: printValue v,
      by simp [printMembers, printStr]⟩
  | cons m t' =>
    exact ⟨(k.data.flatMap escapeChar ++ ['"']) ++ ':' :: ' ' ::
        (printValue v ++ ',' :: ' ' :: printMembers (m :: t')),
      by simp [printMembers, printStr]⟩

lemma printStr_length (s : String) : 2 ≤ (printStr s).length := by
  simp [printStr]

lemma costElems_le : ∀ (xs : List Json),
    (∀ x ∈ xs, cost x ≤ (printValue x).length) →
    costElems xs ≤ (printElems xs).length + 1 := by
  intro xs
  induction xs with
  | nil => intro _; simp [costElems, printElems]
  | cons x t ih =>
    intro h
    have hx := h x (by simp)
    cases t with
    | nil =>
      simp only [costElems, printElems]
      omega
    | cons y t' =>
      have ht := ih (fun z hz => h z (by simp [hz]))
      simp only [costElems, printElems, List.length_append, List.length_cons] at *
      omega

lemma costMembers_le : ∀ (ms : List (String × Json)),
    (∀ p ∈ ms, cost p.2 ≤ (printValue p.2).length) →
    costMembers ms ≤ (printMembers ms).length + 1 := by
  intro ms
  induction ms with
  | nil => intro _; simp [costMembers, printMembers]
  | cons p t ih =>
    intro h
    obtain ⟨k, v⟩ := p
    have hv := h (k, v) (by simp)
    have hk := printStr_length k
    cases t with
    | nil =>
      simp only [costMembers, printMembers, List.length_append, List.length_cons] at *
      omega
    | cons m t' =>
      have ht := ih (fun z hz => h z (by simp [hz]))
      simp only [costMembers, printMembers, List.length_append, List.length_cons] at *
      omega

lemma cost_le_print_aux : ∀ (N : Nat) (v : Json), sizeOf v ≤ N →
    cost v ≤ (printValue v).length := by
  intro N
  induction N using Nat.strong_induction_on with
  | _ N ih =>
    intro v hv
    cases v with
    | null => simp [cost, printValue]
    | bool b => cases b <;> simp [cost, printValue]
    | int n =>
      simp only [cost, printValue]
      split
      · simp
      · simpa using List.length_pos.mpr (natDigits_ne_nil n.toNat)
    | str s => simp [cost, printValue, printStr]
    | arr xs =>
      have hmem : ∀ x ∈ xs, cost x ≤ (printValue x).length := by
        intro x hx
        have h1 : sizeOf x < sizeOf (Json.arr xs) := by
          have h2 := List.sizeOf_lt_of_mem hx
          have h3 : sizeOf (Json.arr xs) = 1 + sizeOf xs := by simp
          omega
        exact ih (sizeOf x) (by omega) x (le_refl _)
      have h := costElems_le xs hmem
      simp only [cost, printValue, List.length_cons, List.length_append]
      simp at h ⊢
      omega
    | obj ms =>
      have hmem : ∀ p ∈ ms, cost p.2 ≤ (printValue p.2).length := by
        intro p hp
        have h1 : sizeOf p.2 < sizeOf (Json.obj ms) := by
          have h2 := List.sizeOf_lt_of_mem hp
          obtain ⟨k, v⟩ := p
          have h3 : sizeOf (Json.obj ms) = 1 + sizeOf ms := by simp
          have h4 : sizeOf ((k, v) : String × Json) = 1 + sizeOf k + sizeOf v := by simp
          simp only at h2 ⊢
          omega
        exact ih (sizeOf p.2) (by omega) p.2 (le_refl _)
      have h := costMembers_le ms hmem
      simp only [cost, printValue, List.length_cons, List.length_append]
      simp at h ⊢
      omega

lemma cost_le_print (v : Json) : cost v ≤ (printValue v).length :=
  cost_le_print_aux (sizeOf v) v (le_refl _)

/-- Round-trip statement for values at a given fuel. -/
def ParsesValue (fuel : Nat) : Prop :=
  ∀ (v : Json) (rest : List Char), cost v ≤ fuel → NoDigitHead rest →
    parseValue fuel (printValue v ++ rest) = some (v, rest)

/-- Round-trip statement for nonempty element lists at a given fuel. -/
def ParsesElems (fuel : Nat) : Prop :=
  ∀ (x : Json) (t : List Json) (rest : List Char), costElems (x :: t) ≤ fuel →
    parseElems fuel (printElems (x :: t) ++ ']' :: rest) = some (x :: t, rest)

/-- Round-trip statement for nonempty member lists at a given fuel. -/
def ParsesMembers (fuel : Nat) : Prop :=
  ∀ (k : String) (v : Json) (t : List (String × Json)) (rest : List Char),
    costMembers ((k, v) :: t) ≤ fuel →
    parseMembers fuel (printMembers ((k, v) :: t) ++ '}' :: rest) =
      some ((k, v) :: t, rest)

/-- The printer/parser round trip, by strong induction on fuel. -/
lemma parse_print_all : ∀ fuel, ParsesValue fuel ∧ ParsesElems fuel ∧ ParsesMembers fuel := by
  intro fuel
  induction fuel using Nat.strong_induction_on with
  | _ fuel ih =>
    refine ⟨?_, ?_, ?_⟩
    · intro v rest hcost hrest
      have hc1 := cost_pos v
      cases fuel with
      | zero => omega
      | succ f =>
        cases v with
        | null => simp [printValue, parseValue, parseNullBody]
        | bool b => cases b <;> simp [printValue, parseValue, parseTrueBody, parseFalseBody]
        | int n =>
          by_cases hn : n < 0
          · have hparse := parseNatChars_natDigits (-n).toNat rest hrest
            have hstream : printValue (.int n) ++ rest
                = '-' :: (natDigits (-n).toNat ++ rest) := by
              simp [printValue, hn]
            rw [hstream]
            simp only [parseValue]
            rw [if_neg (by decide), if_neg (by decide), if_neg (by decide),
              if_neg (by decide), if_neg (by decide), if_neg (by decide),
              if_pos trivial, hparse]
            simp only [Option.map_some']
            rw [show -(((-n).toNat : Int)) = n by omega]
          · obtain ⟨d, ds, hnd, hd⟩ := natDigits_head n.toNat
            obtain ⟨hne1, hne2, hne3, hne4, hne5, hne6, hne7⟩ := digit_head_ne d hd
            have hcast : ((n.toNat : Int)) = n := by omega
            have hstream : printValue (.int n) ++ rest = d :: (ds ++ rest) := by
              simp [printValue, hn, hnd]
            rw [hstream]
            have hback : d :: (ds ++ rest) = natDigits n.toNat ++ rest := by
              rw [hnd]
              rfl
            simp only [parseValue]
            rw [if_neg hne1, if_neg hne2, if_neg hne3, if_neg hne4, if_neg hne5,
              if_neg hne6, if_neg hne7, hback,
              parseNatChars_natDigits n.toNat rest hrest]
            simp [hcast]
        | str s =>
          have hlen : s.data.length <
              (s.data.flatMap escapeChar ++ '"' :: rest).length + 1 := by
            have := flatMap_escape_length s.data
            simp only [List.length_append, List.length_cons]
            omega
          have hps := parseJStringChars_print s.data
            ((s.data.flatMap escapeChar ++ '"' :: rest).length + 1) rest hlen
          have hstream : printValue (.str s) ++ rest
              = '"' :: (s.data.flatMap escapeChar ++ '"' :: rest) := by
            simp [printValue, printStr]
          rw [hstream]
          simp only [parseValue]
          rw [if_neg (by decide), if_neg (by decide), if_pos trivial, hps]
          rfl
        | arr xs =>
          cases xs with
          | nil => simp [printValue, printElems, parseValue]
          | cons x t =>
            obtain ⟨c0, cs0, h0, hne0, _⟩ := printValue_head x
            obtain ⟨w, hw⟩ := printElems_cons_head x t c0 cs0 h0
            have hhead : (printElems (x :: t) ++ ']' :: rest).head? = some c0 := by
              rw [hw]
              rfl
            have hS2 := (ih f (by omega)).2.1
            have hcostE : costElems (x :: t) ≤ f := by
              simp only [cost] at hcost
              omega
            have happ := hS2 x t rest hcostE
            rw [show printValue (.arr (x :: t)) ++ rest =
              '[' :: (printElems (x :: t) ++ ']' :: rest) by simp [printValue]]
            simp [parseValue, hhead, hne0, happ]
        | obj ms =>
          cases ms with
          | nil => simp [printValue, printMembers, parseValue]
          | cons p t =>
            obtain ⟨k, v⟩ := p
            obtain ⟨w, hw⟩ := printMembers_cons_head k v t
            have hhead : (printMembers ((k, v) :: t) ++ '}' :: rest).head? = some '"' := by
              rw [hw]
              rfl
            have hS3 := (ih f (by omega)).2.2
            have hcostM : costMembers ((k, v) :: t) ≤ f := by
              simp only [cost] at hcost
              omega
            have happ := hS3 k v t rest hcostM
            rw [show printValue (.obj ((k, v) :: t)) ++ rest =
              '{' :: (printMembers ((k, v) :: t) ++ '}' :: rest) by simp [printValue]]
            simp [parseValue, hhead, happ]
    · intro x t rest hcost
      have hcx := cost_pos x
      cases fuel with
      | zero =>
        simp only [costElems] at hcost
        omega
      | succ f =>
        have hS1 := (ih f (by omega)).1
        cases t with
        | nil =>
          have hx := hS1 x (']' :: rest)
            (by simp only [costElems] at hcost; omega)
            (noDigitHead_cons rest (by decide))
          simp only [printElems, parseElems, List.append_assoc]
          rw [hx]
          simp
        | cons y t' =>
          have hcy := cost_pos y
          have hx := hS1 x (',' :: ' ' :: (printElems (y :: t') ++ ']' :: rest))
            (by simp only [costElems] at hcost; omega)
            (noDigitHead_cons _ (by decide))
          have hS2 := (ih f (by omega)).2.1
          have hrec := hS2 y t' rest (by simp only [costElems] at hcost ⊢; omega)
          simp only [printElems, parseElems, List.append_assoc, List.cons_append]
          rw [show printValue x ++ ',' :: ' ' :: (printElems (y :: t') ++ ']' :: rest)
              = printValue x ++ (',' :: ' ' :: (printElems (y :: t') ++ ']' :: rest)) by simp]
          rw [hx]
          simp [hrec]
    · intro k v t rest hcost
      have hcv := cost_pos v
      cases fuel with
      | zero =>
        simp only [costMembers] at hcost
        omega
      | succ f =>
        have hS1 := (ih f (by omega)).1
        cases t with
        | nil =>
          have hlen : k.data.length < ((k.data.flatMap escapeChar ++
              '"' :: (':' :: ' ' :: (printValue v ++ '}' :: rest))).length + 1) := by
            have := flatMap_escape_length k.data
            simp only [List.length_append, List.length_cons]
            omega
          have hk := parseJStringChars_print k.data
            ((k.data.flatMap escapeChar ++
              '"' :: (':' :: ' ' :: (printValue v ++ '}' :: rest))).length + 1)
            (':' :: ' ' :: (printValue v ++ '}' :: rest)) hlen
          have hv := hS1 v ('}' :: rest)
            (by simp only [costMembers] at hcost; omega)
            (noDigitHead_cons _ (by decide))
          simp only [printMembers, printStr, parseMembers, List.append_assoc,
            List.cons_append, List.nil_append]
          rw [hk]
          simp [hv]
        | cons m t' =>
          obtain ⟨k2, v2⟩ := m
          have hcv2 := cost_pos v2
          have hlen : k.data.length < ((k.data.flatMap escapeChar ++
              '"' :: (':' :: ' ' :: (printValue v ++ ',' :: ' ' ::
                (printMembers ((k2, v2) :: t') ++ '}' :: rest)))).length + 1) := by
            have := flatMap_escape_length k.data
            simp only [List.length_append, List.length_cons]
            omega
          have hk := parseJStringChars_print k.data
            ((k.data.flatMap escapeChar ++
              '"' :: (':' :: ' ' :: (printValue v ++ ',' :: ' ' ::
                (printMembers ((k2, v2) :: t') ++ '}' :: rest)))).length + 1)
            (':' :: ' ' :: (printValue v ++ ',' :: ' ' ::
              (printMembers ((k2, v2) :: t') ++ '}' :: rest))) hlen
          have hv := hS1 v (',' :: ' ' :: (printMembers ((k2, v2) :: t') ++ '}' :: rest))
            (by simp only [costMembers] at hcost; omega)
            (noDigitHead_cons _ (by decide))
          have hS3 := (ih f (by omega)).2.2
          have hrec := hS3 k2 v2 t' rest
            (by simp only [costMembers] at hcost ⊢; omega)
          simp only [printMembers, printStr, parseMembers, List.append_assoc,
            List.cons_append, List.nil_append]
          rw [hk]
          simp [hv, hrec]

/-- `json.loads` inverts `json.dumps`. -/
lemma loads_dumps (v : Json) : loads (dumps v) = some v := by
  have hP := (parse_print_all ((printValue v).length + 1)).1
  have h := hP v [] (by have := cost_le_print v; omega) noDigitHead_nil
  rw [List.append_nil] at h
  unfold loads dumps
  dsimp only
  rw [h]
  simp

/-- C10 is refuted at the empty dictionary: `log_audit` serializes the details
payload with `json.dumps(details) if details else None`, and an empty dict is
falsy in Python, so `{}` is stored as SQL NULL; re-reading the column then
yields no mapping rather than the empty mapping. -/
theorem audit_detail_roundtrip_counterexample :
    serialize_details (some ([] : List (String × Json))) = none ∧
    deserialize_details (serialize_details (some ([] : List (String × Json)))) = none ∧
    deserialize_details (serialize_details (some ([] : List (String × Json)))) ≠
      some (Json.obj []) := by
  refine ⟨rfl, rfl, ?_⟩
  simp [serialize_details, deserialize_details]

/-- C10 amended: for every *non-empty* dictionary of JSON-serializable keys and
values passed as the details payload, serializing it for the detail column and
deserializing the stored value yields the original mapping; the empty
dictionary is stored as NULL and re-reads as no payload. -/
theorem audit_detail_roundtrip (d : List (String × Json)) :
    deserialize_details (serialize_details (some d)) =
      if d.isEmpty then none else some (Json.obj d) := by
  cases d with
  | nil => rfl
  | cons p t =>
    simp only [serialize_details, deserialize_details, List.isEmpty_cons,
      Bool.false_eq_true, if_false]
    exact loads_dumps (Json.obj (p :: t))
